import Mathlib

/-!
# Verification of the 340B manufacturer policy sync tool

Shallow embedding of `src/mastra/manufacturer-policies.ts` (registry,
markdown table parser, CSV serializer, and the `policySyncTool.execute`
orchestration loop).  Strings are modelled as `List Char`; the external
collaborators (HTTP fetch, PDF text extraction, the LLM call) are modelled
as an environment that, per manufacturer, either throws with a message or
returns the generated markdown text.  The snapshot store is a map from
file path to optional file contents.
-/

/-- Strings are modelled as lists of characters. -/
abbrev Str := List Char

/-! ## String helpers (JS built-ins used by the source) -/

/-- JS `String.prototype.split(sep)` for a one-character separator:
`"".split(s)` is `[""]`, and separators at the ends produce empty pieces. -/
def splitCh (sep : Char) (l : Str) : List Str :=
  l.foldr
    (fun c acc =>
      if c = sep then [] :: acc
      else
        match acc with
        | r :: rs => (c :: r) :: rs
        | [] => [[c]])
    [[]]

/-- JS `String.prototype.trim()`: drop whitespace from both ends. -/
def trimStr (l : Str) : Str :=
  ((l.dropWhile Char.isWhitespace).reverse.dropWhile Char.isWhitespace).reverse

/-! ## Markdown table parser — `parseMarkdownTable`, source lines 89–111 -/

/-- The separator-line test `line.match(/^\|[\s\-:]+$/)`: a leading pipe
followed by one or more whitespace/dash/colon characters and nothing else.
Note the character class does not contain `|`, so a line such as
`|---|---|` (with interior pipes) does NOT match. -/
def isSeparatorLine (l : Str) : Bool :=
  match l with
  | '|' :: rest => !rest.isEmpty && rest.all (fun c => c.isWhitespace || c = '-' || c = ':')
  | _ => false

/-- `line.startsWith('|')`. -/
def startsWithPipe (l : Str) : Bool :=
  match l with
  | '|' :: _ => true
  | _ => false

/-- The loop body of `parseMarkdownTable`: skip separator lines, and for
every line starting with a pipe, split on `|`, trim each cell, drop empty
cells, and keep the row when at least one cell remains. -/
def tableRows : List Str → List (List Str)
  | [] => []
  | line :: rest =>
    if isSeparatorLine line then tableRows rest
    else if startsWithPipe line then
      let cells := ((splitCh '|' line).map trimStr).filter (fun c => !c.isEmpty)
      if cells.isEmpty then tableRows rest else cells :: tableRows rest
    else tableRows rest

/-- `parseMarkdownTable(markdown)`: split into lines, drop blank lines
(`filter(line => line.trim())`), then collect the table rows. -/
def parseMarkdownTable (md : Str) : List (List Str) :=
  tableRows ((splitCh '\n' md).filter (fun l => !(trimStr l).isEmpty))

/-! ## CSV serializer — `rowsToCSV`, source lines 113–124 -/

/-- `cell.replace(/"/g, '""')`: double every quote character. -/
def escCh : Str → Str
  | [] => []
  | c :: cs => if c = '"' then '"' :: '"' :: escCh cs else c :: escCh cs

/-- Per-cell serialization: escape quotes, then wrap in quotes when the
escaped text contains a comma, a quote, or a newline. -/
def csvCell (cell : Str) : Str :=
  let escaped := escCh cell
  if (',' ∈ escaped) ∨ ('"' ∈ escaped) ∨ ('\n' ∈ escaped) then
    '"' :: escaped ++ ['"']
  else escaped

/-- `Array.prototype.join` with a one-character separator. -/
def intercalateCh (sep : Char) : List Str → Str
  | [] => []
  | [x] => x
  | x :: xs => x ++ sep :: intercalateCh sep xs

/-- One row: cells serialized and joined with commas (`row.map(...).join(',')`). -/
def csvRow (row : List Str) : Str :=
  intercalateCh ',' (row.map csvCell)

/-- `rowsToCSV(rows)`: rows joined with newlines; no trailing newline. -/
def rowsToCSV (rows : List (List Str)) : Str :=
  intercalateCh '\n' (rows.map csvRow)

/-! ## The static registry — `MANUFACTURER_POLICIES`, source lines 1–20

`Object.entries` enumerates the literal in insertion order, so the registry
is modelled as a list of `(key, url)` pairs in source order. -/

/-- The static manufacturer registry, in insertion order. -/
def MANUFACTURER_POLICIES : List (Str × Str) :=
  [ ("abbvie".data, "https://340besp.com/resources/abbvie/policy.pdf".data),
    ("alkermes".data, "https://340besp.com/resources/alkermes/policy.pdf".data),
    ("amgen".data, "https://340besp.com/resources/amgen/policy.pdf".data),
    ("astrazeneca".data, "https://340besp.com/resources/astrazeneca/policy.pdf".data),
    ("biogen".data, "https://340besp.com/resources/biogen/policy.pdf".data),
    ("bristolmyerssquibb".data, "https://340besp.com/resources/bristolmyerssquibb/policy.pdf".data),
    ("elililly".data, "https://340besp.com/resources/elililly/policy.pdf".data),
    ("gilead".data, "https://340besp.com/resources/gilead/policy.pdf".data),
    ("glaxosmithkline".data, "https://340besp.com/resources/glaxosmithkline/policy.pdf".data),
    ("janssen".data, "https://340besp.com/resources/janssen/policy.pdf".data),
    ("merck".data, "https://340besp.com/resources/merck/policy.pdf".data),
    ("novartis".data, "https://340besp.com/resources/novartis/policy.pdf".data),
    ("pfizer".data, "https://340besp.com/resources/pfizer/policy.pdf".data),
    ("regeneron".data, "https://340besp.com/resources/regeneron/policy.pdf".data),
    ("roche".data, "https://340besp.com/resources/roche/policy.pdf".data),
    ("sanofi".data, "https://340besp.com/resources/sanofi/policy.pdf".data),
    ("teva".data, "https://340besp.com/resources/teva/policy.pdf".data) ]

/-! ## Data model of the orchestrator — source lines 45–63 -/

/-- `ManufacturerDetail` (the optional `name` field is never assigned by
the source and is omitted). -/
structure SyncDetail where
  id : Str
  updated : Bool
  rulesCount : Option Nat
  error : Option Str
deriving DecidableEq, Repr

/-- `SyncResult`. -/
structure SyncResult where
  totalManufacturers : Nat
  updated : Nat
  unchanged : Nat
  details : List SyncDetail
deriving Repr

/-- `LastRunStatus` (`last_run` carries the externally supplied timestamp). -/
structure LastRunStatus where
  last_run : Str
  updates : List Str
deriving Repr

/-- The snapshot store: CSV file contents by path (`none` = file absent,
matching `readExistingCSV` returning `null`). -/
def Files := Str → Option Str

/-- `writeCSV`: overwrite one path. -/
def writeFile (files : Files) (p v : Str) : Files :=
  fun q => if q = p then some v else files q

/-- The CSV path for a manufacturer: `` `${manufacturerKey}_340b_rules.csv` ``
(the constant output-directory prefix is dropped). -/
def pathOf (key : Str) : Str := key ++ "_340b_rules.csv".data

/-- Outcome of the external pipeline steps for one manufacturer:
either `downloadPDF` rejects on a non-ok HTTP status (raising the message
built at source line 68), or the fetch/`extractTextFromPDF`/`callLLM`
step throws with an opaque message, or `callLLM` returns markdown text. -/
inductive Outcome where
  | fetchHttpError (statusText : Str)
  | stepThrow (msg : Str)
  | ok (markdown : Str)

/-- The external world: pipeline outcome per `(manufacturerKey, pdfUrl)`. -/
def Env := Str → Str → Outcome

/-- Source line 68: `` `Failed to download PDF from ${url}: ${response.statusText}` ``. -/
def fetchErrorMessage (url statusText : Str) : Str :=
  "Failed to download PDF from ".data ++ url ++ ": ".data ++ statusText

/-- Source line 196: the empty-table error message. -/
def emptyTableMessage : Str := "No rows extracted from markdown table".data

/-- The message recorded by the per-manufacturer `catch` for a failing
pipeline (`none` when the pipeline reaches the parse stage). -/
def pipelineError (url : Str) (o : Outcome) : Option Str :=
  match o with
  | .fetchHttpError st => some (fetchErrorMessage url st)
  | .stepThrow m => some m
  | .ok _ => none

/-- Aggregate produced by the `for` loop of `policySyncTool.execute`. -/
structure LoopOut where
  details : List SyncDetail
  updatedCount : Nat
  unchangedCount : Nat
  updatedManufacturers : List Str
  files : Files

/-- The `for` loop of `policySyncTool.execute` (source lines 176–227),
translated to structural recursion: details and updated-ids are produced
in iteration order, counters are summed, and the snapshot store is
threaded through. -/
def loop (env : Env) : List (Str × Str) → Files → LoopOut
  | [], files => ⟨[], 0, 0, [], files⟩
  | (key, url) :: rest, files =>
    match env key url with
    | .fetchHttpError st =>
      let r := loop env rest files
      ⟨⟨key, false, none, some (fetchErrorMessage url st)⟩ :: r.details,
        r.updatedCount, r.unchangedCount + 1, r.updatedManufacturers, r.files⟩
    | .stepThrow m =>
      let r := loop env rest files
      ⟨⟨key, false, none, some m⟩ :: r.details,
        r.updatedCount, r.unchangedCount + 1, r.updatedManufacturers, r.files⟩
    | .ok md =>
      let rows := parseMarkdownTable md
      if rows.isEmpty then
        -- lines 195–199: record the error, `continue` without counting
        let r := loop env rest files
        ⟨⟨key, false, none, some emptyTableMessage⟩ :: r.details,
          r.updatedCount, r.unchangedCount, r.updatedManufacturers, r.files⟩
      else
        let csv := rowsToCSV rows
        let p := pathOf key
        if files p = some csv then
          -- lines 216–220: content identical
          let r := loop env rest files
          ⟨⟨key, false, some (rows.length - 1), none⟩ :: r.details,
            r.updatedCount, r.unchangedCount + 1, r.updatedManufacturers, r.files⟩
        else
          -- lines 210–215: absent or different — write and mark updated
          let r := loop env rest (writeFile files p csv)
          ⟨⟨key, true, some (rows.length - 1), none⟩ :: r.details,
            r.updatedCount + 1, r.unchangedCount, key :: r.updatedManufacturers, r.files⟩

/-- Everything `policySyncTool.execute` leaves behind: the returned result,
the final snapshot store, and the run-status record. -/
structure RunOutput where
  result : SyncResult
  files : Files
  status : LastRunStatus

/-- `policySyncTool.execute` over an arbitrary registry. -/
def executeOn (env : Env) (entries : List (Str × Str)) (files0 : Files) (now : Str) :
    RunOutput :=
  let r := loop env entries files0
  ⟨⟨entries.length, r.updatedCount, r.unchangedCount, r.details⟩,
    r.files, ⟨now, r.updatedManufacturers⟩⟩

/-- `policySyncTool.execute` (source lines 169–244). -/
def execute (env : Env) (files0 : Files) (now : Str) : RunOutput :=
  executeOn env MANUFACTURER_POLICIES files0 now

/-- An entry for which the pipeline reaches the parse and yields zero rows. -/
def isEmptyTableCase (env : Env) (e : Str × Str) : Bool :=
  match env e.1 e.2 with
  | .ok md => (parseMarkdownTable md).isEmpty
  | _ => false

/-- Number of empty-table occurrences in a run. -/
def emptyCount (env : Env) (es : List (Str × Str)) : Nat :=
  es.countP (isEmptyTableCase env)

/-- How one manufacturer's snapshot file ends up after its iteration,
as a function of its prior contents: written exactly when the pipeline
succeeds with a nonempty table whose CSV differs from the stored one
(or no file exists); untouched otherwise. -/
def fileAfter (env : Env) (old : Option Str) (k u : Str) : Option Str :=
  match env k u with
  | .ok md =>
    let rows := parseMarkdownTable md
    if rows.isEmpty then old
    else if old = some (rowsToCSV rows) then old else some (rowsToCSV rows)
  | _ => old

/-- The detail record one manufacturer's iteration produces, as a function
of its prior snapshot contents. -/
def detailFor (env : Env) (old : Option Str) (k u : Str) : SyncDetail :=
  match env k u with
  | .fetchHttpError st => ⟨k, false, none, some (fetchErrorMessage u st)⟩
  | .stepThrow m => ⟨k, false, none, some m⟩
  | .ok md =>
    let rows := parseMarkdownTable md
    if rows.isEmpty then ⟨k, false, none, some emptyTableMessage⟩
    else if old = some (rowsToCSV rows) then ⟨k, false, some (rows.length - 1), none⟩
    else ⟨k, true, some (rows.length - 1), none⟩

/-- An entry counted into the `unchanged` bucket: a throwing pipeline, or a
successful pipeline whose CSV equals the stored snapshot. -/
def isUnchangedCase (env : Env) (old : Option Str) (e : Str × Str) : Bool :=
  match env e.1 e.2 with
  | .ok md =>
    let rows := parseMarkdownTable md
    !rows.isEmpty && old == some (rowsToCSV rows)
  | _ => true

/-! ## A CSV reader for the round-trip claim

The spec's round-trip property quantifies over "a parser that splits on
commas and newlines while respecting the quoting rule".  `csvParse` below
is such a parser: it splits records on unquoted newlines, fields on
unquoted commas, and unwraps quoted fields, collapsing doubled quotes. -/

/-- Quote parity after scanning a chunk: each `"` toggles the state. -/
def qtog (x : Str) (b : Bool) : Bool :=
  x.foldl (fun st c => if c = '"' then !st else st) b

/-- `sepFree sep x b = true` when scanning `x` from quote-state `b` never
meets `sep` outside quotes. -/
def sepFree (sep : Char) : Str → Bool → Bool
  | [], _ => true
  | c :: cs, true => if c = '"' then sepFree sep cs false else sepFree sep cs true
  | c :: cs, false =>
    if c = '"' then sepFree sep cs true
    else if c = sep then false
    else sepFree sep cs false

/-- Split on `sep`, ignoring separators inside quotes. -/
def splitQuoted (sep : Char) : Str → Bool → Str → List Str
  | [], _, acc => [acc.reverse]
  | c :: cs, true, acc =>
    if c = '"' then splitQuoted sep cs false (c :: acc)
    else splitQuoted sep cs true (c :: acc)
  | c :: cs, false, acc =>
    if c = '"' then splitQuoted sep cs true (c :: acc)
    else if c = sep then acc.reverse :: splitQuoted sep cs false []
    else splitQuoted sep cs false (c :: acc)

/-- Collapse doubled quotes. -/
def unescQ : Str → Str
  | [] => []
  | [c] => [c]
  | c :: c' :: cs => if c = '"' ∧ c' = '"' then '"' :: unescQ cs else c :: unescQ (c' :: cs)

/-- Unwrap one field: strip a surrounding quote pair and collapse doubled
quotes; leave unquoted fields as they are. -/
def parseField (f : Str) : Str :=
  match f with
  | [] => []
  | c :: rest =>
    if c = '"' then
      match rest.getLast? with
      | some d => if d = '"' then unescQ rest.dropLast else f
      | none => f
    else f

/-- The CSV reader: records on unquoted newlines, fields on unquoted
commas, fields unwrapped. -/
def csvParse (s : Str) : List (List Str) :=
  (splitQuoted '\n' s false []).map (fun r => (splitQuoted ',' r false []).map parseField)

/-! ## Spec-side definitions and fixed test environments -/

/-- The quote-doubling step as the spec sentence words it: map each cell,
doubling every internal quote character. -/
def escapeQuotesSpec (cell : Str) : Str :=
  cell.flatMap (fun c => if c = '"' then ['"', '"'] else [c])

/-- The per-cell rule as the spec words it: wrap in quotes exactly when
the escaped cell contains a comma, a quote, or a newline. -/
def csvCellSpec (cell : Str) : Str :=
  let escaped := escapeQuotesSpec cell
  if (',' ∈ escaped) ∨ ('"' ∈ escaped) ∨ ('\n' ∈ escaped) then
    ['"'] ++ escaped ++ ['"']
  else escaped

/-- The serializer as the spec words it: cells joined with commas, rows
with newlines, no trailing newline appended. -/
def rowsToCSVSpec (rows : List (List Str)) : Str :=
  intercalateCh '\n' (rows.map (fun row => intercalateCh ',' (row.map csvCellSpec)))

/-- Environment whose model reply never contains a pipe-delimited line. -/
def envNoTable : Env := fun _ _ => .ok "nothing here".data

/-- Environment whose model reply is a fixed two-row markdown table. -/
def envTable : Env := fun _ _ => .ok "| h |\n| v |".data

/-- Environment whose pipeline always throws with message `"boom"`. -/
def envBoom : Env := fun _ _ => .stepThrow "boom".data

/-- Environment whose pipeline always throws with an empty message. -/
def envSilent : Env := fun _ _ => .stepThrow []

/-- The empty snapshot store. -/
def noFiles : Files := fun _ => none

/-! ## Loop invariants -/

/-- One detail per registry entry, in iteration order, carrying its key. -/
lemma loop_ids (env : Env) :
    ∀ (es : List (Str × Str)) (files : Files),
      ((loop env es files).details).map (·.id) = es.map (·.1) := by
  intro es
  induction es with
  | nil => intro files; rfl
  | cons e rest ih =>
    intro files
    obtain ⟨key, url⟩ := e
    cases h : env key url with
    | fetchHttpError st => simp [loop, h, ih]
    | stepThrow m => simp [loop, h, ih]
    | ok md =>
      by_cases hrows : (parseMarkdownTable md).isEmpty
      · simp [loop, h, hrows, ih]
      · by_cases hcsv : files (pathOf key) = some (rowsToCSV (parseMarkdownTable md))
        · simp [loop, h, hrows, hcsv, ih]
        · simp [loop, h, hrows, hcsv, ih]

/-- The two counters absorb every entry except the empty-table ones. -/
lemma loop_counts (env : Env) :
    ∀ (es : List (Str × Str)) (files : Files),
      (loop env es files).updatedCount + (loop env es files).unchangedCount
        + es.countP (isEmptyTableCase env) = es.length := by
  intro es
  induction es with
  | nil => intro files; rfl
  | cons e rest ih =>
    intro files
    obtain ⟨key, url⟩ := e
    rw [List.countP_cons]
    cases h : env key url with
    | fetchHttpError st =>
      have hc := ih files
      simp [loop, h, isEmptyTableCase]
      omega
    | stepThrow m =>
      have hc := ih files
      simp [loop, h, isEmptyTableCase]
      omega
    | ok md =>
      by_cases hrows : (parseMarkdownTable md).isEmpty
      · have hc := ih files
        simp [loop, h, isEmptyTableCase, hrows]
        omega
      · by_cases hcsv : files (pathOf key) = some (rowsToCSV (parseMarkdownTable md))
        · have hc := ih files
          simp [loop, h, isEmptyTableCase, hrows, hcsv]
          omega
        · have hc := ih (writeFile files (pathOf key) (rowsToCSV (parseMarkdownTable md)))
          simp [loop, h, isEmptyTableCase, hrows, hcsv]
          omega

/-- The updated counter counts exactly the details marked updated. -/
lemma loop_updated_filter (env : Env) :
    ∀ (es : List (Str × Str)) (files : Files),
      (loop env es files).updatedCount
        = ((loop env es files).details.filter (·.updated)).length := by
  intro es
  induction es with
  | nil => intro files; rfl
  | cons e rest ih =>
    intro files
    obtain ⟨key, url⟩ := e
    cases h : env key url with
    | fetchHttpError st => simp [loop, h, ih]
    | stepThrow m => simp [loop, h, ih]
    | ok md =>
      by_cases hrows : (parseMarkdownTable md).isEmpty
      · simp [loop, h, hrows, ih]
      · by_cases hcsv : files (pathOf key) = some (rowsToCSV (parseMarkdownTable md))
        · simp [loop, h, hrows, hcsv, ih]
        · simp [loop, h, hrows, hcsv, ih]

/-- The run-status update list is exactly the ids of the updated details,
in iteration order. -/
lemma loop_updates_filter (env : Env) :
    ∀ (es : List (Str × Str)) (files : Files),
      (loop env es files).updatedManufacturers
        = ((loop env es files).details.filter (·.updated)).map (·.id) := by
  intro es
  induction es with
  | nil => intro files; rfl
  | cons e rest ih =>
    intro files
    obtain ⟨key, url⟩ := e
    cases h : env key url with
    | fetchHttpError st => simp [loop, h, ih]
    | stepThrow m => simp [loop, h, ih]
    | ok md =>
      by_cases hrows : (parseMarkdownTable md).isEmpty
      · simp [loop, h, hrows, ih]
      · by_cases hcsv : files (pathOf key) = some (rowsToCSV (parseMarkdownTable md))
        · simp [loop, h, hrows, hcsv, ih]
        · simp [loop, h, hrows, hcsv, ih]

/-- No detail is both updated and carrying an error. -/
lemma loop_excl (env : Env) :
    ∀ (es : List (Str × Str)) (files : Files),
      ((loop env es files).details).all (fun d => !d.updated || d.error.isNone) = true := by
  intro es
  induction es with
  | nil => intro files; rfl
  | cons e rest ih =>
    intro files
    obtain ⟨key, url⟩ := e
    cases h : env key url with
    | fetchHttpError st => simp [loop, h, ih]
    | stepThrow m => simp [loop, h, ih]
    | ok md =>
      by_cases hrows : (parseMarkdownTable md).isEmpty
      · simp [loop, h, hrows, ih]
      · by_cases hcsv : files (pathOf key) = some (rowsToCSV (parseMarkdownTable md))
        · simp [loop, h, hrows, hcsv, ih]
        · simp [loop, h, hrows, hcsv, ih]

/-- Detail of an entry whose pipeline throws: the caught message, not
updated, no rules count. This branch does not consult the snapshot store. -/
lemma loop_detail_throw (env : Env) :
    ∀ (es : List (Str × Str)) (files : Files) (i : Nat) (k u : Str),
      es[i]? = some (k, u) → pipelineError u (env k u) ≠ none →
      (loop env es files).details[i]? = some ⟨k, false, none, pipelineError u (env k u)⟩ := by
  intro es
  induction es with
  | nil => intro files i k u hi; simp at hi
  | cons e rest ih =>
    intro files i k u hi herr
    obtain ⟨key, url⟩ := e
    cases i with
    | zero =>
      simp only [List.getElem?_cons_zero, Option.some.injEq, Prod.mk.injEq] at hi
      obtain ⟨rfl, rfl⟩ := hi
      cases h : env key url with
      | fetchHttpError st => simp [loop, h, pipelineError]
      | stepThrow m => simp [loop, h, pipelineError]
      | ok md => simp [pipelineError, h] at herr
    | succ j =>
      simp only [List.getElem?_cons_succ] at hi
      cases h : env key url with
      | fetchHttpError st => simpa [loop, h] using ih files j k u hi herr
      | stepThrow m => simpa [loop, h] using ih files j k u hi herr
      | ok md =>
        by_cases hrows : (parseMarkdownTable md).isEmpty
        · simpa [loop, h, hrows] using ih files j k u hi herr
        · by_cases hcsv : files (pathOf key) = some (rowsToCSV (parseMarkdownTable md))
          · simpa [loop, h, hrows, hcsv] using ih files j k u hi herr
          · simpa [loop, h, hrows, hcsv] using
              ih (writeFile files (pathOf key) (rowsToCSV (parseMarkdownTable md))) j k u hi herr

/-- Detail of an entry whose parse yields zero rows: the literal message,
not updated, no rules count. This branch does not consult the snapshot
store and increments neither counter. -/
lemma loop_detail_empty (env : Env) :
    ∀ (es : List (Str × Str)) (files : Files) (i : Nat) (k u md : Str),
      es[i]? = some (k, u) → env k u = .ok md → parseMarkdownTable md = [] →
      (loop env es files).details[i]? = some ⟨k, false, none, some emptyTableMessage⟩ := by
  intro es
  induction es with
  | nil => intro files i k u md hi; simp at hi
  | cons e rest ih =>
    intro files i k u md hi hok hrows
    obtain ⟨key, url⟩ := e
    cases i with
    | zero =>
      simp only [List.getElem?_cons_zero, Option.some.injEq, Prod.mk.injEq] at hi
      obtain ⟨rfl, rfl⟩ := hi
      simp [loop, hok, hrows]
    | succ j =>
      simp only [List.getElem?_cons_succ] at hi
      cases h : env key url with
      | fetchHttpError st => simpa [loop, h] using ih files j k u md hi hok hrows
      | stepThrow m => simpa [loop, h] using ih files j k u md hi hok hrows
      | ok md' =>
        by_cases hrows' : (parseMarkdownTable md').isEmpty
        · simpa [loop, h, hrows'] using ih files j k u md hi hok hrows
        · by_cases hcsv : files (pathOf key) = some (rowsToCSV (parseMarkdownTable md'))
          · simpa [loop, h, hrows', hcsv] using ih files j k u md hi hok hrows
          · simpa [loop, h, hrows', hcsv] using
              ih (writeFile files (pathOf key) (rowsToCSV (parseMarkdownTable md'))) j k u md
                hi hok hrows

/-- Paths mention their key injectively. -/
lemma pathOf_inj {a b : Str} (h : pathOf a = pathOf b) : a = b :=
  List.append_cancel_right h

/-- Frame: the run never touches a path that belongs to no entry. -/
lemma loop_frame (env : Env) :
    ∀ (es : List (Str × Str)) (files : Files) (p : Str),
      (∀ e ∈ es, pathOf e.1 ≠ p) → (loop env es files).files p = files p := by
  intro es
  induction es with
  | nil => intro files p _; rfl
  | cons e rest ih =>
    intro files p hne
    obtain ⟨key, url⟩ := e
    have hkey : pathOf key ≠ p := hne (key, url) (by simp)
    have hrest : ∀ e ∈ rest, pathOf e.1 ≠ p := fun e he => hne e (by simp [he])
    cases h : env key url with
    | fetchHttpError st => simpa [loop, h] using ih files p hrest
    | stepThrow m => simpa [loop, h] using ih files p hrest
    | ok md =>
      by_cases hrows : (parseMarkdownTable md).isEmpty
      · simpa [loop, h, hrows] using ih files p hrest
      · by_cases hcsv : files (pathOf key) = some (rowsToCSV (parseMarkdownTable md))
        · simpa [loop, h, hrows, hcsv] using ih files p hrest
        · have hpk : p ≠ pathOf key := fun hp => hkey hp.symm
          have hw := ih (writeFile files (pathOf key) (rowsToCSV (parseMarkdownTable md))) p hrest
          simp [loop, h, hrows, hcsv, hw, writeFile, hpk]

/-- With no other entry sharing its key, a manufacturer's snapshot ends up
as `fileAfter` of its prior contents, and its detail is `detailFor` of its
prior contents. -/
lemma loop_at (env : Env) :
    ∀ (pre : List (Str × Str)) (k u : Str) (post : List (Str × Str)) (files : Files),
      (∀ e ∈ pre, e.1 ≠ k) → (∀ e ∈ post, e.1 ≠ k) →
      (loop env (pre ++ (k, u) :: post) files).files (pathOf k)
          = fileAfter env (files (pathOf k)) k u
        ∧ (loop env (pre ++ (k, u) :: post) files).details[pre.length]?
          = some (detailFor env (files (pathOf k)) k u) := by
  intro pre
  induction pre with
  | nil =>
    intro k u post files _ hpost
    have hpost' : ∀ e ∈ post, pathOf e.1 ≠ pathOf k :=
      fun e he hp => hpost e he (pathOf_inj hp)
    cases h : env k u with
    | fetchHttpError st =>
      exact ⟨by simp [loop, h, fileAfter, loop_frame env post files _ hpost'],
        by simp [loop, h, detailFor]⟩
    | stepThrow m =>
      exact ⟨by simp [loop, h, fileAfter, loop_frame env post files _ hpost'],
        by simp [loop, h, detailFor]⟩
    | ok md =>
      by_cases hrows : (parseMarkdownTable md).isEmpty
      · exact ⟨by simp [loop, h, hrows, fileAfter, loop_frame env post files _ hpost'],
          by simp [loop, h, hrows, detailFor]⟩
      · by_cases hcsv : files (pathOf k) = some (rowsToCSV (parseMarkdownTable md))
        · exact ⟨by simp [loop, h, hrows, hcsv, fileAfter,
              loop_frame env post files _ hpost'],
            by simp [loop, h, hrows, hcsv, detailFor]⟩
        · refine ⟨?_, by simp [loop, h, hrows, hcsv, detailFor]⟩
          have hw := loop_frame env post
            (writeFile files (pathOf k) (rowsToCSV (parseMarkdownTable md))) _ hpost'
          simp [loop, h, hrows, hcsv, fileAfter, hw, writeFile]
  | cons e pre' ih =>
    intro k u post files hpre hpost
    obtain ⟨key, url⟩ := e
    have hkey : key ≠ k := hpre (key, url) (by simp)
    have hpre' : ∀ e ∈ pre', e.1 ≠ k := fun e he => hpre e (by simp [he])
    have hpk : pathOf key ≠ pathOf k := fun hp => hkey (pathOf_inj hp)
    cases h : env key url with
    | fetchHttpError st =>
      have := ih k u post files hpre' hpost
      simpa [loop, h] using this
    | stepThrow m =>
      have := ih k u post files hpre' hpost
      simpa [loop, h] using this
    | ok md =>
      by_cases hrows : (parseMarkdownTable md).isEmpty
      · have := ih k u post files hpre' hpost
        simpa [loop, h, hrows] using this
      · by_cases hcsv : files (pathOf key) = some (rowsToCSV (parseMarkdownTable md))
        · have := ih k u post files hpre' hpost
          simpa [loop, h, hrows, hcsv] using this
        · have := ih k u post
            (writeFile files (pathOf key) (rowsToCSV (parseMarkdownTable md))) hpre' hpost
          have hkp : pathOf k ≠ pathOf key := fun hp => hkey (pathOf_inj hp).symm
          have hsame : writeFile files (pathOf key) (rowsToCSV (parseMarkdownTable md))
              (pathOf k) = files (pathOf k) := by
            simp [writeFile, hkp]
          rw [hsame] at this
          simpa [loop, h, hrows, hcsv] using this

/-- With distinct keys, the unchanged counter counts exactly the entries
whose pipeline throws or whose CSV equals the stored snapshot. -/
lemma loop_unchanged_count (env : Env) :
    ∀ (es : List (Str × Str)) (files : Files), (es.map Prod.fst).Nodup →
      (loop env es files).unchangedCount
        = es.countP (fun e => isUnchangedCase env (files (pathOf e.1)) e) := by
  intro es
  induction es with
  | nil => intro files _; rfl
  | cons e rest ih =>
    intro files hnd
    obtain ⟨key, url⟩ := e
    simp only [List.map_cons, List.nodup_cons] at hnd
    obtain ⟨hkey, hnd'⟩ := hnd
    rw [List.countP_cons]
    cases h : env key url with
    | fetchHttpError st =>
      have hc := ih files hnd'
      simp [loop, h, isUnchangedCase, hc]
    | stepThrow m =>
      have hc := ih files hnd'
      simp [loop, h, isUnchangedCase, hc]
    | ok md =>
      by_cases hrows : (parseMarkdownTable md).isEmpty
      · have hc := ih files hnd'
        simp [loop, h, hrows, isUnchangedCase, hc]
      · by_cases hcsv : files (pathOf key) = some (rowsToCSV (parseMarkdownTable md))
        · have hc := ih files hnd'
          simp [loop, h, hrows, hcsv, isUnchangedCase, hc]
        · have hc := ih (writeFile files (pathOf key) (rowsToCSV (parseMarkdownTable md))) hnd'
          have hcong : rest.countP
                (fun e => isUnchangedCase env
                  (writeFile files (pathOf key) (rowsToCSV (parseMarkdownTable md))
                    (pathOf e.1)) e)
              = rest.countP (fun e => isUnchangedCase env (files (pathOf e.1)) e) := by
            apply List.countP_congr
            intro a ha
            have hne : pathOf a.1 ≠ pathOf key := by
              intro hp
              exact hkey (by
                have := pathOf_inj hp
                exact this ▸ List.mem_map_of_mem Prod.fst ha)
            simp [writeFile, hne]
          rw [hcong] at hc
          simp [loop, h, hrows, hcsv, isUnchangedCase, hc]

/-- Re-running the loop on its own output store writes nothing and marks
nothing updated (distinct keys). -/
lemma loop_idem (env : Env) :
    ∀ (es : List (Str × Str)) (files : Files), (es.map Prod.fst).Nodup →
      (loop env es ((loop env es files).files)).files = (loop env es files).files
      ∧ (loop env es ((loop env es files).files)).updatedCount = 0
      ∧ (loop env es ((loop env es files).files)).updatedManufacturers = [] := by
  intro es
  induction es with
  | nil => intro files _; exact ⟨rfl, rfl, rfl⟩
  | cons e rest ih =>
    intro files hnd
    obtain ⟨key, url⟩ := e
    simp only [List.map_cons, List.nodup_cons] at hnd
    obtain ⟨hkey, hnd'⟩ := hnd
    have hpaths : ∀ e ∈ rest, pathOf e.1 ≠ pathOf key := by
      intro a ha hp
      exact hkey (pathOf_inj hp ▸ List.mem_map_of_mem Prod.fst ha)
    cases h : env key url with
    | fetchHttpError st =>
      have hrec := ih files hnd'
      simp [loop, h, hrec.1, hrec.2.1, hrec.2.2]
    | stepThrow m =>
      have hrec := ih files hnd'
      simp [loop, h, hrec.1, hrec.2.1, hrec.2.2]
    | ok md =>
      by_cases hrows : (parseMarkdownTable md).isEmpty
      · have hrec := ih files hnd'
        simp [loop, h, hrows, hrec.1, hrec.2.1, hrec.2.2]
      · by_cases hcsv : files (pathOf key) = some (rowsToCSV (parseMarkdownTable md))
        · have hrec := ih files hnd'
          have hF1 : (loop env rest files).files (pathOf key)
              = some (rowsToCSV (parseMarkdownTable md)) := by
            rw [loop_frame env rest files (pathOf key) hpaths]
            exact hcsv
          simp [loop, h, hrows, hcsv, hF1, hrec.1, hrec.2.1, hrec.2.2]
        · have hrec := ih (writeFile files (pathOf key) (rowsToCSV (parseMarkdownTable md))) hnd'
          have hF1 : (loop env rest
                (writeFile files (pathOf key) (rowsToCSV (parseMarkdownTable md)))).files
                (pathOf key)
              = some (rowsToCSV (parseMarkdownTable md)) := by
            rw [loop_frame env rest _ (pathOf key) hpaths]
            simp [writeFile]
          simp [loop, h, hrows, hcsv, hF1, hrec.1, hrec.2.1, hrec.2.2]

/-- Distinct keys let any entry be isolated as `pre ++ entry :: post`. -/
lemma exists_key_split (es : List (Str × Str)) (hnd : (es.map Prod.fst).Nodup)
    (i : Nat) (k u : Str) (hi : es[i]? = some (k, u)) :
    ∃ pre post, es = pre ++ (k, u) :: post ∧ pre.length = i ∧
      (∀ e ∈ pre, e.1 ≠ k) ∧ (∀ e ∈ post, e.1 ≠ k) := by
  have hlen : i < es.length := by
    by_contra hge
    simp [List.getElem?_eq_none (Nat.le_of_not_lt hge)] at hi
  have hget : es[i] = (k, u) := by
    have := List.getElem?_eq_getElem hlen
    rw [this] at hi
    exact Option.some.inj hi
  refine ⟨es.take i, es.drop (i + 1), ?_, List.length_take_of_le (Nat.le_of_lt hlen), ?_, ?_⟩
  · rw [← hget]
    conv_lhs => rw [← List.take_append_drop i es]
    congr 1
    exact (List.getElem_cons_drop es i hlen).symm
  all_goals
  · have hmid : ((es.take i).map Prod.fst ++ k :: (es.drop (i + 1)).map Prod.fst).Nodup := by
      have : es.map Prod.fst
          = (es.take i).map Prod.fst ++ k :: (es.drop (i + 1)).map Prod.fst := by
        conv_lhs => rw [← List.take_append_drop i es]
        rw [← List.getElem_cons_drop es i hlen, hget]
        simp
      rw [← this]
      exact hnd
    rw [List.nodup_middle, List.nodup_cons] at hmid
    intro e he heq
    exact hmid.1 (by
      rw [List.mem_append]
      first
        | exact Or.inl (heq ▸ List.mem_map_of_mem Prod.fst he)
        | exact Or.inr (heq ▸ List.mem_map_of_mem Prod.fst he))

/-! ### Scanning lemmas -/

lemma qtog_nil (b : Bool) : qtog [] b = b := rfl

lemma qtog_cons (c : Char) (cs : Str) (b : Bool) :
    qtog (c :: cs) b = qtog cs (if c = '"' then !b else b) := by
  by_cases hc : c = '"' <;> simp [qtog, hc]

lemma qtog_append (x y : Str) (b : Bool) : qtog (x ++ y) b = qtog y (qtog x b) := by
  simp [qtog, List.foldl_append]

lemma sepFree_append (sep : Char) :
    ∀ (x y : Str) (b : Bool), sepFree sep x b = true → sepFree sep y (qtog x b) = true →
      sepFree sep (x ++ y) b = true := by
  intro x
  induction x with
  | nil => intro y b _ hy; simpa [qtog] using hy
  | cons c cs ih =>
    intro y b hx hy
    rw [qtog_cons] at hy
    by_cases hc : c = '"'
    · subst hc
      cases b with
      | true =>
        simp only [sepFree, if_pos rfl] at hx
        simp only [List.cons_append, sepFree, if_pos rfl]
        exact ih y false hx (by simpa using hy)
      | false =>
        simp only [sepFree, if_pos rfl] at hx
        simp only [List.cons_append, sepFree, if_pos rfl]
        exact ih y true hx (by simpa using hy)
    · cases b with
      | true =>
        simp only [sepFree, if_neg hc] at hx
        simp only [List.cons_append, sepFree, if_neg hc]
        exact ih y true hx (by simpa [hc] using hy)
      | false =>
        by_cases hcs : c = sep
        · simp only [sepFree, if_neg hc, if_pos hcs] at hx
          exact absurd hx (by simp)
        · simp only [sepFree, if_neg hc, if_neg hcs] at hx
          simp only [List.cons_append, sepFree, if_neg hc, if_neg hcs]
          exact ih y false hx (by simpa [hc] using hy)

lemma sepFree_of_safe (sep : Char) :
    ∀ (x : Str) (b : Bool), (∀ c ∈ x, c ≠ '"' ∧ c ≠ sep) → sepFree sep x b = true := by
  intro x
  induction x with
  | nil => intro b _; rfl
  | cons c cs ih =>
    intro b hsafe
    obtain ⟨hq, hs⟩ := hsafe c (by simp)
    have hrest : ∀ a ∈ cs, a ≠ '"' ∧ a ≠ sep := fun a ha => hsafe a (by simp [ha])
    cases b with
    | true => simp [sepFree, hq, ih true hrest]
    | false => simp [sepFree, hq, hs, ih false hrest]

lemma qtog_of_no_quote :
    ∀ (x : Str) (b : Bool), (∀ c ∈ x, c ≠ '"') → qtog x b = b := by
  intro x
  induction x with
  | nil => intro b _; rfl
  | cons c cs ih =>
    intro b hsafe
    have hq := hsafe c (by simp)
    rw [qtog_cons, if_neg hq]
    exact ih b (fun a ha => hsafe a (by simp [ha]))

lemma escCh_cons_quote (cs : Str) : escCh ('"' :: cs) = '"' :: '"' :: escCh cs := by
  simp [escCh]

lemma escCh_cons_other {c : Char} (cs : Str) (hc : c ≠ '"') :
    escCh (c :: cs) = c :: escCh cs := by
  simp [escCh, hc]

/-- Inside a quoted region, escaped text keeps the scanner inside quotes:
its quotes come in adjacent pairs. -/
lemma sepFree_escCh (sep : Char) : ∀ s : Str, sepFree sep (escCh s) true = true := by
  intro s
  induction s with
  | nil => rfl
  | cons c cs ih =>
    by_cases hc : c = '"'
    · subst hc
      rw [escCh_cons_quote]
      simp [sepFree, ih]
    · rw [escCh_cons_other cs hc]
      simp [sepFree, hc, ih]

lemma qtog_escCh : ∀ s : Str, qtog (escCh s) true = true := by
  intro s
  induction s with
  | nil => rfl
  | cons c cs ih =>
    by_cases hc : c = '"'
    · subst hc
      rw [escCh_cons_quote]
      simp [qtog_cons, ih]
    · rw [escCh_cons_other cs hc]
      simp [qtog_cons, hc, ih]

lemma mem_escCh (a : Char) : ∀ s : Str, a ∈ escCh s ↔ a ∈ s := by
  intro s
  induction s with
  | nil => simp [escCh]
  | cons c cs ih =>
    by_cases hc : c = '"'
    · subst hc
      rw [escCh_cons_quote]
      simp only [List.mem_cons, ih]
      tauto
    · rw [escCh_cons_other cs hc]
      simp [ih]

lemma escCh_eq_self : ∀ s : Str, '"' ∉ s → escCh s = s := by
  intro s
  induction s with
  | nil => intro _; rfl
  | cons c cs ih =>
    intro hq
    have hc : c ≠ '"' := fun h => hq (by simp [h])
    have hcs : '"' ∉ cs := fun h => hq (by simp [h])
    rw [escCh_cons_other cs hc, ih hcs]

lemma unescQ_escCh : ∀ s : Str, unescQ (escCh s) = s := by
  intro s
  induction s with
  | nil => rfl
  | cons c cs ih =>
    by_cases hc : c = '"'
    · subst hc
      rw [escCh_cons_quote]
      simp [unescQ, ih]
    · rw [escCh_cons_other cs hc]
      cases hcs : escCh cs with
      | nil =>
        have : cs = [] := by
          cases cs with
          | nil => rfl
          | cons d cs' =>
            by_cases hd : d = '"' <;>
              first
                | (rw [hd, escCh_cons_quote] at hcs; exact absurd hcs (by simp))
                | (rw [escCh_cons_other cs' hd] at hcs; exact absurd hcs (by simp))
        subst this
        simp [unescQ]
      | cons d l =>
        have htail : unescQ (d :: l) = cs := by rw [← hcs, ih]
        simp [unescQ, hc, htail]

lemma sepFree_quote_true (sep : Char) (cs : Str) :
    sepFree sep ('"' :: cs) true = sepFree sep cs false := by
  simp [sepFree]

lemma sepFree_quote_false (sep : Char) (cs : Str) :
    sepFree sep ('"' :: cs) false = sepFree sep cs true := by
  simp [sepFree]

lemma sepFree_other_true (sep : Char) {c : Char} (cs : Str) (hc : c ≠ '"') :
    sepFree sep (c :: cs) true = sepFree sep cs true := by
  simp [sepFree, hc]

lemma sepFree_other_false (sep : Char) {c : Char} (cs : Str) (hc : c ≠ '"') (hcs : c ≠ sep) :
    sepFree sep (c :: cs) false = sepFree sep cs false := by
  simp [sepFree, hc, hcs]

lemma sepFree_sep_false (sep : Char) (cs : Str) (hq : sep ≠ '"') :
    sepFree sep (sep :: cs) false = false := by
  simp [sepFree, hq]

lemma splitQuoted_quote_true (sep : Char) (cs acc : Str) :
    splitQuoted sep ('"' :: cs) true acc = splitQuoted sep cs false ('"' :: acc) := by
  simp [splitQuoted]

lemma splitQuoted_quote_false (sep : Char) (cs acc : Str) :
    splitQuoted sep ('"' :: cs) false acc = splitQuoted sep cs true ('"' :: acc) := by
  simp [splitQuoted]

lemma splitQuoted_other_true (sep : Char) {c : Char} (cs acc : Str) (hc : c ≠ '"') :
    splitQuoted sep (c :: cs) true acc = splitQuoted sep cs true (c :: acc) := by
  simp [splitQuoted, hc]

lemma splitQuoted_other_false (sep : Char) {c : Char} (cs acc : Str) (hc : c ≠ '"')
    (hcs : c ≠ sep) :
    splitQuoted sep (c :: cs) false acc = splitQuoted sep cs false (c :: acc) := by
  simp [splitQuoted, hc, hcs]

lemma splitQuoted_sep_false (sep : Char) (cs acc : Str) (hq : sep ≠ '"') :
    splitQuoted sep (sep :: cs) false acc = acc.reverse :: splitQuoted sep cs false [] := by
  simp [splitQuoted, hq]

/-- Splitting a safe chunk followed by an unquoted separator emits exactly
that chunk. -/
lemma splitQuoted_append (sep : Char) (hq : sep ≠ '"') (rest : Str) :
    ∀ (x : Str) (b : Bool) (acc : Str), sepFree sep x b = true → qtog x b = false →
      splitQuoted sep (x ++ sep :: rest) b acc
        = (acc.reverse ++ x) :: splitQuoted sep rest false [] := by
  intro x
  induction x with
  | nil =>
    intro b acc _ hq0
    have hb : b = false := by simpa [qtog] using hq0
    subst hb
    rw [List.nil_append, splitQuoted_sep_false sep rest acc hq]
    simp
  | cons c cs ih =>
    intro b acc hsf hq0
    rw [qtog_cons] at hq0
    by_cases hc : c = '"'
    · subst hc
      cases b with
      | true =>
        rw [sepFree_quote_true] at hsf
        rw [List.cons_append, splitQuoted_quote_true,
          ih false ('"' :: acc) hsf (by simpa using hq0)]
        simp
      | false =>
        rw [sepFree_quote_false] at hsf
        rw [List.cons_append, splitQuoted_quote_false,
          ih true ('"' :: acc) hsf (by simpa using hq0)]
        simp
    · cases b with
      | true =>
        rw [sepFree_other_true sep cs hc] at hsf
        rw [List.cons_append, splitQuoted_other_true sep _ acc hc,
          ih true (c :: acc) hsf (by simpa [hc] using hq0)]
        simp
      | false =>
        by_cases hcs : c = sep
        · rw [hcs] at hsf
          rw [sepFree_sep_false sep cs hq] at hsf
          exact absurd hsf (by simp)
        · rw [sepFree_other_false sep cs hc hcs] at hsf
          rw [List.cons_append, splitQuoted_other_false sep _ acc hc hcs,
            ih false (c :: acc) hsf (by simpa [hc] using hq0)]
          simp

/-- Splitting a safe chunk with no trailing separator emits one piece. -/
lemma splitQuoted_last (sep : Char) (hq : sep ≠ '"') :
    ∀ (x : Str) (b : Bool) (acc : Str), sepFree sep x b = true → qtog x b = false →
      splitQuoted sep x b acc = [acc.reverse ++ x] := by
  intro x
  induction x with
  | nil =>
    intro b acc _ _
    simp [splitQuoted]
  | cons c cs ih =>
    intro b acc hsf hq0
    rw [qtog_cons] at hq0
    by_cases hc : c = '"'
    · subst hc
      cases b with
      | true =>
        rw [sepFree_quote_true] at hsf
        rw [splitQuoted_quote_true, ih false ('"' :: acc) hsf (by simpa using hq0)]
        simp
      | false =>
        rw [sepFree_quote_false] at hsf
        rw [splitQuoted_quote_false, ih true ('"' :: acc) hsf (by simpa using hq0)]
        simp
    · cases b with
      | true =>
        rw [sepFree_other_true sep cs hc] at hsf
        rw [splitQuoted_other_true sep _ acc hc,
          ih true (c :: acc) hsf (by simpa [hc] using hq0)]
        simp
      | false =>
        by_cases hcs : c = sep
        · rw [hcs] at hsf
          rw [sepFree_sep_false sep cs hq] at hsf
          exact absurd hsf (by simp)
        · rw [sepFree_other_false sep cs hc hcs] at hsf
          rw [splitQuoted_other_false sep _ acc hc hcs,
            ih false (c :: acc) hsf (by simpa [hc] using hq0)]
          simp

/-- A serialized cell is a safe chunk for the comma and newline levels. -/
lemma csvCell_safe (sep : Char) (hq : sep ≠ '"') (hs : sep = ',' ∨ sep = '\n')
    (cell : Str) :
    sepFree sep (csvCell cell) false = true ∧ qtog (csvCell cell) false = false := by
  by_cases hw : (',' ∈ escCh cell) ∨ ('"' ∈ escCh cell) ∨ ('\n' ∈ escCh cell)
  · have hcell : csvCell cell = '"' :: escCh cell ++ ['"'] := by
      simp only [csvCell, if_pos hw]
    constructor
    · rw [hcell, show ('"' :: escCh cell ++ ['"'] : Str)
        = '"' :: (escCh cell ++ ['"']) from rfl, sepFree_quote_false]
      apply sepFree_append sep _ _ _ (sepFree_escCh sep cell)
      rw [qtog_escCh, sepFree_quote_true]
      rfl
    · rw [hcell, show ('"' :: escCh cell ++ ['"'] : Str)
        = '"' :: (escCh cell ++ ['"']) from rfl, qtog_cons, if_pos rfl,
        Bool.not_false, qtog_append, qtog_escCh]
      rfl
  · have hcell : csvCell cell = escCh cell := by
      simp only [csvCell, if_neg hw]
    push_neg at hw
    obtain ⟨h1, h2, h3⟩ := hw
    constructor
    · rw [hcell]
      apply sepFree_of_safe
      intro c hcmem
      refine ⟨fun hq' => h2 (hq' ▸ hcmem), fun hs' => ?_⟩
      cases hs with
      | inl h => exact h1 ((hs'.trans h) ▸ hcmem)
      | inr h => exact h3 ((hs'.trans h) ▸ hcmem)
    · rw [hcell]
      apply qtog_of_no_quote
      exact fun c hcmem hq' => h2 (hq' ▸ hcmem)

/-- Field-level split: a serialized row splits on commas back into its
serialized cells. -/
lemma csvRow_split : ∀ (row : List Str), row ≠ [] →
    splitQuoted ',' (csvRow row) false [] = row.map csvCell := by
  intro row
  induction row with
  | nil => intro h; exact absurd rfl h
  | cons x xs ih =>
    intro _
    cases xs with
    | nil =>
      have := csvCell_safe ',' (by decide) (Or.inl rfl) x
      simp only [csvRow, List.map_cons, List.map_nil, intercalateCh]
      rw [splitQuoted_last ',' (by decide) (csvCell x) false [] this.1 this.2]
      simp
    | cons y ys =>
      have hx := csvCell_safe ',' (by decide) (Or.inl rfl) x
      have hrow : csvRow (x :: y :: ys) = csvCell x ++ ',' :: csvRow (y :: ys) := by
        simp [csvRow, intercalateCh]
      rw [hrow, splitQuoted_append ',' (by decide) _ (csvCell x) false [] hx.1 hx.2,
        ih (by simp)]
      simp

/-- A serialized row is a safe chunk at the newline level. -/
lemma csvRow_safe (row : List Str) :
    sepFree '\n' (csvRow row) false = true ∧ qtog (csvRow row) false = false := by
  induction row with
  | nil => exact ⟨rfl, rfl⟩
  | cons x xs ih =>
    cases xs with
    | nil =>
      have := csvCell_safe '\n' (by decide) (Or.inr rfl) x
      simpa [csvRow, intercalateCh] using this
    | cons y ys =>
      have hx := csvCell_safe '\n' (by decide) (Or.inr rfl) x
      have hrow : csvRow (x :: y :: ys) = csvCell x ++ ',' :: csvRow (y :: ys) := by
        simp [csvRow, intercalateCh]
      constructor
      · rw [hrow]
        apply sepFree_append '\n' _ _ _ hx.1
        rw [hx.2]
        show sepFree '\n' (',' :: csvRow (y :: ys)) false = true
        simpa [sepFree] using ih.1
      · rw [hrow, qtog_append, hx.2, qtog_cons]
        simpa using ih.2

/-- Record-level split: the serialized table splits on newlines back into
its serialized rows. -/
lemma rowsToCSV_split : ∀ (rows : List (List Str)), rows ≠ [] →
    splitQuoted '\n' (rowsToCSV rows) false [] = rows.map csvRow := by
  intro rows
  induction rows with
  | nil => intro h; exact absurd rfl h
  | cons r rs ih =>
    intro _
    cases rs with
    | nil =>
      have := csvRow_safe r
      simp only [rowsToCSV, List.map_cons, List.map_nil, intercalateCh]
      rw [splitQuoted_last '\n' (by decide) (csvRow r) false [] this.1 this.2]
      simp
    | cons r' rs' =>
      have hr := csvRow_safe r
      have hrows : rowsToCSV (r :: r' :: rs') = csvRow r ++ '\n' :: rowsToCSV (r' :: rs') := by
        simp [rowsToCSV, intercalateCh]
      rw [hrows, splitQuoted_append '\n' (by decide) _ (csvRow r) false [] hr.1 hr.2,
        ih (by simp)]
      simp

/-- Reading back one serialized cell recovers the cell. -/
lemma parseField_csvCell (cell : Str) : parseField (csvCell cell) = cell := by
  by_cases hw : (',' ∈ escCh cell) ∨ ('"' ∈ escCh cell) ∨ ('\n' ∈ escCh cell)
  · have hcell : csvCell cell = '"' :: escCh cell ++ ['"'] := by
      simp only [csvCell, if_pos hw]
    rw [hcell]
    show parseField ('"' :: (escCh cell ++ ['"'])) = cell
    simp only [parseField, if_pos rfl, List.getLast?_concat, if_pos rfl,
      List.dropLast_concat]
    exact unescQ_escCh cell
  · have hcell : csvCell cell = escCh cell := by
      simp only [csvCell, if_neg hw]
    push_neg at hw
    have hnq : '"' ∉ cell := fun h => hw.2.1 ((mem_escCh '"' cell).mpr h)
    rw [hcell, escCh_eq_self cell hnq]
    cases cell with
    | nil => rfl
    | cons c cs =>
      have hc : c ≠ '"' := fun h => hnq (by simp [h])
      simp [parseField, hc]

/-- Round-trip over the reader: serialize then parse is the identity on
tables with at least one row, every row with at least one cell. -/
lemma csvParse_rowsToCSV (rows : List (List Str)) (h1 : rows ≠ [])
    (h2 : ∀ r ∈ rows, r ≠ []) : csvParse (rowsToCSV rows) = rows := by
  unfold csvParse
  rw [rowsToCSV_split rows h1, List.map_map]
  conv_rhs => rw [← List.map_id rows]
  apply List.map_congr_left
  intro r hr
  show (splitQuoted ',' (csvRow r) false []).map parseField = r
  rw [csvRow_split r (h2 r hr), List.map_map]
  conv_rhs => rw [← List.map_id r]
  apply List.map_congr_left
  intro c _
  exact parseField_csvCell c

/-! ## Projections of `execute` -/

lemma exec_total (env : Env) (files0 : Files) (now : Str) :
    (execute env files0 now).result.totalManufacturers = MANUFACTURER_POLICIES.length := rfl

lemma exec_updated (env : Env) (files0 : Files) (now : Str) :
    (execute env files0 now).result.updated
      = (loop env MANUFACTURER_POLICIES files0).updatedCount := rfl

lemma exec_unchanged (env : Env) (files0 : Files) (now : Str) :
    (execute env files0 now).result.unchanged
      = (loop env MANUFACTURER_POLICIES files0).unchangedCount := rfl

lemma exec_details (env : Env) (files0 : Files) (now : Str) :
    (execute env files0 now).result.details
      = (loop env MANUFACTURER_POLICIES files0).details := rfl

lemma exec_files (env : Env) (files0 : Files) (now : Str) :
    (execute env files0 now).files = (loop env MANUFACTURER_POLICIES files0).files := rfl

lemma exec_updates (env : Env) (files0 : Files) (now : Str) :
    (execute env files0 now).status.updates
      = (loop env MANUFACTURER_POLICIES files0).updatedManufacturers := rfl

lemma registry_keys_nodup : (MANUFACTURER_POLICIES.map Prod.fst).Nodup := by decide

/-- The source's quote-doubling equals the spec's wording of it. -/
lemma escCh_eq_spec : ∀ s : Str, escCh s = escapeQuotesSpec s := by
  intro s
  induction s with
  | nil => rfl
  | cons c cs ih =>
    by_cases hc : c = '"'
    · subst hc
      simp [escCh, escapeQuotesSpec, ih]
    · simp [escCh, escapeQuotesSpec, hc, ih]

lemma csvCell_eq_spec (cell : Str) : csvCell cell = csvCellSpec cell := by
  simp [csvCell, csvCellSpec, escCh_eq_spec]

/-! ## The claims -/

/-- Claim C1 (code evaluation at the claimed input): `parseMarkdownTable`
does NOT discard the separator line `|---|---|` — the regex
`^\|[\s\-:]+$` cannot match a line with interior pipes, so the input
parses to THREE rows, the middle one being `["---","---"]`, not to the
two rows the spec claims.  The code's own comment ("Skip markdown table
separators (e.g., |---|---|)") documents the intended behaviour, so this
is a defect of the code, not of the spec. -/
theorem claim_C1_code_eval :
    parseMarkdownTable ("| a | b |\n|---|---|\n| 1 | 2 |".data)
      = [["a".data, "b".data], ["---".data, "---".data], ["1".data, "2".data]] := by
  decide

/-- Claim C2: a manufacturer whose parse yields zero rows gets a detail
carrying exactly "No rows extracted from markdown table" with
`updated = false`; neither counter is incremented, so
`updated + unchanged + emptyCount = total` and, as such a case occurs,
`updated + unchanged < total`. -/
theorem claim_C2_empty_table (env : Env) (files0 : Files) (now : Str) (i : Nat)
    (k u md : Str) (hreg : MANUFACTURER_POLICIES[i]? = some (k, u))
    (hok : env k u = .ok md) (hrows : parseMarkdownTable md = []) :
    (execute env files0 now).result.details[i]?
        = some ⟨k, false, none, some emptyTableMessage⟩
      ∧ (execute env files0 now).result.updated + (execute env files0 now).result.unchanged
          + emptyCount env MANUFACTURER_POLICIES
        = (execute env files0 now).result.totalManufacturers
      ∧ (execute env files0 now).result.updated + (execute env files0 now).result.unchanged
        < (execute env files0 now).result.totalManufacturers := by
  have hd := loop_detail_empty env MANUFACTURER_POLICIES files0 i k u md hreg hok hrows
  have hc := loop_counts env MANUFACTURER_POLICIES files0
  have hpos : 0 < MANUFACTURER_POLICIES.countP (isEmptyTableCase env) := by
    rw [List.countP_pos_iff]
    exact ⟨(k, u), List.getElem?_mem hreg, by simp [isEmptyTableCase, hok, hrows]⟩
  refine ⟨by rw [exec_details]; exact hd, ?_, ?_⟩
  · rw [exec_updated, exec_unchanged, exec_total, emptyCount]
    exact hc
  · rw [exec_updated, exec_unchanged, exec_total]
    omega

/-- Witness for C2: with a model reply containing no pipe-delimited line
and an empty store, the first manufacturer's detail carries the literal
empty-table message and the counter identities hold. -/
theorem claim_C2_witness :
    (execute envNoTable noFiles []).result.details[0]?
        = some ⟨"abbvie".data, false, none, some emptyTableMessage⟩
      ∧ (execute envNoTable noFiles []).result.updated
          + (execute envNoTable noFiles []).result.unchanged
          + emptyCount envNoTable MANUFACTURER_POLICIES
        = (execute envNoTable noFiles []).result.totalManufacturers
      ∧ (execute envNoTable noFiles []).result.updated
          + (execute envNoTable noFiles []).result.unchanged
        < (execute envNoTable noFiles []).result.totalManufacturers :=
  claim_C2_empty_table envNoTable noFiles [] 0 "abbvie".data
    "https://340besp.com/resources/abbvie/policy.pdf".data "nothing here".data
    (by decide) rfl (by decide)

/-- Counterexample for C3 as stated: the code records the caught message
verbatim, so a pipeline throw whose message is the empty string yields a
detail with `error = some ""` — an EMPTY error message, contradicting the
claim's "non-empty error message". -/
theorem claim_C3_counterexample :
    (execute envSilent noFiles []).result.details[0]?
      = some ⟨"abbvie".data, false, none, some []⟩ := by
  decide

/-- Claim C3 (amended): a manufacturer whose pipeline throws at fetch,
extraction, or generation gets a detail whose error is exactly the caught
message (non-empty whenever the thrown message is non-empty; the
HTTP-status message built by the code always is), `updated = false`; the
entry falls in the unchanged bucket, whose count is the number of
throwing-or-equal entries; and the batch still produces all details. -/
theorem claim_C3_throw (env : Env) (files0 : Files) (now : Str) (i : Nat) (k u : Str)
    (hreg : MANUFACTURER_POLICIES[i]? = some (k, u))
    (herr : pipelineError u (env k u) ≠ none) :
    (execute env files0 now).result.details[i]?
        = some ⟨k, false, none, pipelineError u (env k u)⟩
      ∧ isUnchangedCase env (files0 (pathOf k)) (k, u) = true
      ∧ (execute env files0 now).result.unchanged
        = MANUFACTURER_POLICIES.countP
            (fun e => isUnchangedCase env (files0 (pathOf e.1)) e)
      ∧ (execute env files0 now).result.details.length = MANUFACTURER_POLICIES.length := by
  have hd := loop_detail_throw env MANUFACTURER_POLICIES files0 i k u hreg herr
  have hcase : isUnchangedCase env (files0 (pathOf k)) (k, u) = true := by
    cases h : env k u with
    | fetchHttpError st => simp [isUnchangedCase, h]
    | stepThrow m => simp [isUnchangedCase, h]
    | ok md => rw [h] at herr; simp [pipelineError] at herr
  refine ⟨by rw [exec_details]; exact hd, hcase, ?_, ?_⟩
  · rw [exec_unchanged]
    exact loop_unchanged_count env MANUFACTURER_POLICIES files0 registry_keys_nodup
  · rw [exec_details]
    have := congrArg List.length (loop_ids env MANUFACTURER_POLICIES files0)
    simpa using this

/-- Witness for C3 (amended): a pipeline that throws "boom" for every
manufacturer. -/
theorem claim_C3_witness :
    (execute envBoom noFiles []).result.details[0]?
        = some ⟨"abbvie".data, false, none,
            pipelineError "https://340besp.com/resources/abbvie/policy.pdf".data
              (envBoom "abbvie".data "https://340besp.com/resources/abbvie/policy.pdf".data)⟩
      ∧ isUnchangedCase envBoom (noFiles (pathOf "abbvie".data))
          ("abbvie".data, "https://340besp.com/resources/abbvie/policy.pdf".data) = true
      ∧ (execute envBoom noFiles []).result.unchanged
        = MANUFACTURER_POLICIES.countP
            (fun e => isUnchangedCase envBoom (noFiles (pathOf e.1)) e)
      ∧ (execute envBoom noFiles []).result.details.length = MANUFACTURER_POLICIES.length :=
  claim_C3_throw envBoom noFiles [] 0 "abbvie".data
    "https://340besp.com/resources/abbvie/policy.pdf".data (by decide) (by decide)

/-- Claim C4: a manufacturer's snapshot after a run equals `fileAfter` of
its prior contents — written (with the complete serialized CSV, never a
prefix of it) exactly when the pipeline fully succeeds and the CSV differs
from the stored one or no file exists; untouched on an equal CSV, on any
throw, and on an empty parse. -/
theorem claim_C4_file_frame (env : Env) (files0 : Files) (now : Str) (i : Nat)
    (k u : Str) (hreg : MANUFACTURER_POLICIES[i]? = some (k, u)) :
    (execute env files0 now).files (pathOf k) = fileAfter env (files0 (pathOf k)) k u := by
  obtain ⟨pre, post, hsplit, _, hpre, hpost⟩ :=
    exists_key_split MANUFACTURER_POLICIES registry_keys_nodup i k u hreg
  rw [exec_files, hsplit]
  exact (loop_at env pre k u post files0 hpre hpost).1

/-- Witness for C4: a fixed successful table against an empty store. -/
theorem claim_C4_witness :
    (execute envTable noFiles []).files (pathOf "abbvie".data)
      = fileAfter envTable (noFiles (pathOf "abbvie".data)) "abbvie".data
          "https://340besp.com/resources/abbvie/policy.pdf".data :=
  claim_C4_file_frame envTable noFiles [] 0 "abbvie".data
    "https://340besp.com/resources/abbvie/policy.pdf".data (by decide)

/-- Claim C5: a manufacturer whose pipeline succeeds with a nonempty table
whose CSV differs from the stored snapshot (or with no prior file) gets
`updated = true` with the rules count, its file is overwritten with exactly
the new CSV, its id appears in the run-status updates list, and the
updated counter counts exactly the updated details. -/
theorem claim_C5_updated (env : Env) (files0 : Files) (now : Str) (i : Nat)
    (k u md : Str) (hreg : MANUFACTURER_POLICIES[i]? = some (k, u))
    (hok : env k u = .ok md) (hrows : parseMarkdownTable md ≠ [])
    (hdiff : files0 (pathOf k) ≠ some (rowsToCSV (parseMarkdownTable md))) :
    (execute env files0 now).result.details[i]?
        = some ⟨k, true, some ((parseMarkdownTable md).length - 1), none⟩
      ∧ (execute env files0 now).files (pathOf k)
        = some (rowsToCSV (parseMarkdownTable md))
      ∧ k ∈ (execute env files0 now).status.updates
      ∧ (execute env files0 now).result.updated
        = ((execute env files0 now).result.details.filter (·.updated)).length := by
  obtain ⟨pre, post, hsplit, hlen, hpre, hpost⟩ :=
    exists_key_split MANUFACTURER_POLICIES registry_keys_nodup i k u hreg
  have hat := loop_at env pre k u post files0 hpre hpost
  have hrowsE : (parseMarkdownTable md).isEmpty = false := by
    simpa [List.isEmpty_iff] using hrows
  have hdet : detailFor env (files0 (pathOf k)) k u
      = ⟨k, true, some ((parseMarkdownTable md).length - 1), none⟩ := by
    simp [detailFor, hok, hrowsE, hdiff]
  have hfile : fileAfter env (files0 (pathOf k)) k u
      = some (rowsToCSV (parseMarkdownTable md)) := by
    simp [fileAfter, hok, hrowsE, hdiff]
  have h1 : (loop env MANUFACTURER_POLICIES files0).details[i]?
      = some ⟨k, true, some ((parseMarkdownTable md).length - 1), none⟩ := by
    rw [hsplit, ← hlen, hat.2, hdet]
  refine ⟨by rw [exec_details]; exact h1, ?_, ?_, ?_⟩
  · rw [exec_files, hsplit, hat.1, hfile]
  · rw [exec_updates, loop_updates_filter]
    exact List.mem_map.mpr
      ⟨⟨k, true, some ((parseMarkdownTable md).length - 1), none⟩,
        List.mem_filter.mpr ⟨List.getElem?_mem h1, rfl⟩, rfl⟩
  · rw [exec_updated, exec_details]
    exact loop_updated_filter env MANUFACTURER_POLICIES files0

/-- Witness for C5: a fixed successful two-row table against an empty
store. -/
theorem claim_C5_witness :
    (execute envTable noFiles []).result.details[0]?
        = some ⟨"abbvie".data, true,
            some ((parseMarkdownTable "| h |\n| v |".data).length - 1), none⟩
      ∧ (execute envTable noFiles []).files (pathOf "abbvie".data)
        = some (rowsToCSV (parseMarkdownTable "| h |\n| v |".data))
      ∧ "abbvie".data ∈ (execute envTable noFiles []).status.updates
      ∧ (execute envTable noFiles []).result.updated
        = ((execute envTable noFiles []).result.details.filter (·.updated)).length :=
  claim_C5_updated envTable noFiles [] 0 "abbvie".data
    "https://340besp.com/resources/abbvie/policy.pdf".data "| h |\n| v |".data
    (by decide) rfl (by decide) (by decide)

/-- Claim C6: every run returns `totalManufacturers = N` and produces
exactly one detail per registry entry, in registry iteration order, where
`N` is the size of the static registry — no matter how entries fail. -/
theorem claim_C6_totals (env : Env) (files0 : Files) (now : Str) :
    (execute env files0 now).result.totalManufacturers = MANUFACTURER_POLICIES.length
      ∧ (execute env files0 now).result.details.length = MANUFACTURER_POLICIES.length
      ∧ (execute env files0 now).result.details.map (·.id)
        = MANUFACTURER_POLICIES.map Prod.fst := by
  refine ⟨rfl, ?_, ?_⟩
  · rw [exec_details]
    have := congrArg List.length (loop_ids env MANUFACTURER_POLICIES files0)
    simpa using this
  · rw [exec_details]
    exact loop_ids env MANUFACTURER_POLICIES files0

/-- Claim C7: `rowsToCSV` implements exactly the spec's words — each cell
has its quotes doubled and is wrapped in quotes precisely when the escaped
cell contains a comma, a quote, or a newline; cells join with commas, rows
with newlines, and no trailing newline is appended. -/
theorem claim_C7_serializer (rows : List (List Str)) : rowsToCSV rows = rowsToCSVSpec rows := by
  unfold rowsToCSV rowsToCSVSpec
  congr 1
  apply List.map_congr_left
  intro r _
  unfold csvRow
  congr 1
  apply List.map_congr_left
  intro c _
  exact csvCell_eq_spec c

/-- Counterexample for C8 as stated: serialization is not injective on all
row lists — the empty table and the table with one single-empty-cell row
both serialize to the empty text, so no reader whatsoever can recover both
originals; the claim fails for one of these two inputs. -/
theorem claim_C8_counterexample :
    rowsToCSV [[[]]] = rowsToCSV [] ∧ ([[[]]] : List (List Str)) ≠ [] :=
  ⟨rfl, by decide⟩

/-- Claim C8 (amended): for every table with at least one row, each row
with at least one cell, serializing with `rowsToCSV` and re-parsing with
the quote-respecting reader `csvParse` recovers the original cell values
exactly — including cells containing commas, quotes, and embedded
newlines. -/
theorem claim_C8_roundtrip (rows : List (List Str)) (h1 : rows ≠ [])
    (h2 : ∀ r ∈ rows, r ≠ []) : csvParse (rowsToCSV rows) = rows :=
  csvParse_rowsToCSV rows h1 h2

/-- Witness for C8 (amended): a table with a comma cell, a quote cell, an
embedded-newline cell, and an empty cell. -/
theorem claim_C8_witness :
    csvParse (rowsToCSV [["a,b".data, "c\"d".data], ["e\nf".data, [], "g".data]])
      = [["a,b".data, "c\"d".data], ["e\nf".data, [], "g".data]] :=
  claim_C8_roundtrip [["a,b".data, "c\"d".data], ["e\nf".data, [], "g".data]]
    (by decide) (by decide)

/-- Claim C9: running the sync twice with the same environment (same
source bytes and model output) yields `updated = 0` on the second run, an
empty updates list, and file contents identical to the first run's
output. -/
theorem claim_C9_idempotent (env : Env) (files0 : Files) (now1 now2 : Str) :
    (execute env (execute env files0 now1).files now2).result.updated = 0
      ∧ (execute env (execute env files0 now1).files now2).files
        = (execute env files0 now1).files
      ∧ (execute env (execute env files0 now1).files now2).status.updates = [] := by
  have h := loop_idem env MANUFACTURER_POLICIES files0 registry_keys_nodup
  refine ⟨?_, ?_, ?_⟩
  · rw [exec_updated, exec_files]
    exact h.2.1
  · rw [exec_files, exec_files]
    exact h.1
  · rw [exec_updates, exec_files]
    exact h.2.2

/-- Claim C10: the run-status updates list is exactly, in registry
iteration order, the ids of the details marked updated; the result's
updated count equals that list's length; and no detail is both updated and
carrying an error. -/
theorem claim_C10_coherence (env : Env) (files0 : Files) (now : Str) :
    (execute env files0 now).status.updates
        = ((execute env files0 now).result.details.filter (·.updated)).map (·.id)
      ∧ (execute env files0 now).result.updated
        = (execute env files0 now).status.updates.length
      ∧ ((execute env files0 now).result.details.all
          fun d => !d.updated || d.error.isNone) = true := by
  refine ⟨?_, ?_, ?_⟩
  · rw [exec_updates, exec_details]
    exact loop_updates_filter env MANUFACTURER_POLICIES files0
  · rw [exec_updated, exec_updates, loop_updates_filter env MANUFACTURER_POLICIES files0,
      List.length_map]
    exact loop_updated_filter env MANUFACTURER_POLICIES files0
  · rw [exec_details]
    exact loop_excl env MANUFACTURER_POLICIES files0
